import Mathlib

/-!
Verification of the motion-estimation kernel of the `vehicle` repository:
the inertial-measurement buffer with windowed preintegration
(`src/auv/vio/imu_manager.cpp`) and the accept/reject control flow of the
Levenberg-Marquardt pose optimizer.

Modelling choices:
* C++ `double` seconds are modelled as `ℚ` (exact arithmetic; every
  comparison the code makes is order/equality, faithfully represented).
* `timestamp_t` raw stamps are modelled as `ℕ` ticks.
* The gtsam preintegration object `pim_` is external library state; the
  repository's code only chooses which `integrateMeasurement(a, w, dt)`
  calls happen and when `resetIntegration()` happens.  We therefore model
  the accumulator as the trace of `integrateMeasurement` calls since the
  last reset; the zero/identity accumulator is the empty trace.
* `ThreadsafeQueue::PeekFront` on an empty queue is undefined behaviour
  (the spec: "undefined/erroring if empty").  The model records in the
  ghost flag `emptyPeek` whether `Preintegrate` ever peeked an empty
  queue, and gives the loop the defined semantics "stop" at that point.
* Ghost fields `anchor`, `startDur`, `failKind` record which sample the
  anchor loop selected, the duration of the synthetic start step (if one
  was integrated, line 65 of imu_manager.cpp), and which of the three
  failure returns was taken; they do not influence any computed data.
-/

namespace Vehicle

/-- Rational subtraction, computed on numerators/denominators so that the
kernel can evaluate it (the library subtraction on `ℚ` is irreducible);
`qsub_eq` proves it equal to `a - b`. -/
def qsub (a b : ℚ) : ℚ := mkRat (a.num * b.den - b.num * a.den) (a.den * b.den)

/-- Rational absolute value by case split; `qabs_eq` proves it equal to
`|a|`. -/
def qabs (a : ℚ) : ℚ := if a < 0 then -a else a

/-- Rational multiplication on numerators/denominators; `qmul_eq` proves
it equal to `a * b`. -/
def qmul (a b : ℚ) : ℚ := mkRat (a.num * b.num) (a.den * b.den)

theorem qsub_eq (a b : ℚ) : qsub a b = a - b := by
  have hda : ((a.den : ℚ)) ≠ 0 := Nat.cast_ne_zero.mpr a.den_nz
  have hdb : ((b.den : ℚ)) ≠ 0 := Nat.cast_ne_zero.mpr b.den_nz
  unfold qsub
  rw [Rat.mkRat_eq_div]
  push_cast
  conv_rhs => rw [← Rat.num_div_den a, ← Rat.num_div_den b]
  rw [div_sub_div _ _ hda hdb]
  ring_nf

theorem qabs_eq (a : ℚ) : qabs a = |a| := by
  unfold qabs
  split_ifs with h
  · exact (abs_of_neg h).symm
  · exact (abs_of_nonneg (le_of_not_lt h)).symm

theorem qmul_eq (a b : ℚ) : qmul a b = a * b := by
  have hda : ((a.den : ℚ)) ≠ 0 := Nat.cast_ne_zero.mpr a.den_nz
  have hdb : ((b.den : ℚ)) ≠ 0 := Nat.cast_ne_zero.mpr b.den_nz
  unfold qmul
  rw [Rat.mkRat_eq_div]
  push_cast
  conv_rhs => rw [← Rat.num_div_den a, ← Rat.num_div_den b]
  rw [div_mul_div_comm]

/-- Modelled from the spec: `core/timestamp.hpp` is not under src/.  The
spec describes timestamps as "monotonic, seconds or fixed-point ticks";
`ImuManager::Preintegrate` converts raw stamps with `ConvertToSeconds`
before comparing them with `seconds_t` values, so raw stamps are
fixed-point ticks, modelled at nanosecond resolution. -/
def ConvertToSeconds (t : ℕ) : ℚ := mkRat t 1000000000

/-- Modelled from the spec: sentinel for an unbounded lower time bound
("a request to integrate from the beginning of time"). -/
def kMinSeconds : ℚ := -(10 ^ 15)

/-- Modelled from the spec: sentinel for an unbounded upper time bound. -/
def kMaxSeconds : ℚ := 10 ^ 15

/-- 3-vector of rationals (angular velocity / linear acceleration). -/
abbrev Vec3 := ℚ × ℚ × ℚ

/-- One inertial sample: raw timestamp in ticks, angular velocity `w`,
linear acceleration `a` (fields used by `ImuManager::Preintegrate`). -/
structure ImuMeasurement where
  timestamp : ℕ
  w : Vec3
  a : Vec3
deriving DecidableEq

/-- The preintegration accumulator, modelled as the trace of
`integrateMeasurement (a, w, dt)` calls since the last
`resetIntegration`; `[]` is the zero/identity accumulator. -/
abbrev Pim := List (Vec3 × Vec3 × ℚ)

/-- `PimResult(valid, from_time, to_time, pim)` as constructed by
`ImuManager::Preintegrate`. -/
structure PimResult where
  valid : Bool
  from_time : ℚ
  to_time : ℚ
  pim : Pim
deriving DecidableEq

/-- The parameters of `ImuManager` used by `Preintegrate`. -/
structure Params where
  allowed_misalignment_sec : ℚ
deriving DecidableEq

/-- Mutable state of `ImuManager`: the queue of samples (front first) and
the accumulator `pim_`. -/
structure ImuState where
  queue : List ImuMeasurement
  pim : Pim
deriving DecidableEq

/-- Which failure return of `Preintegrate` was taken (ghost data). -/
inductive FailKind where
  | emptyBuf
  | startMisalign
  | endMisalign
deriving DecidableEq

/-- Full outcome of one `Preintegrate` call: the returned result, the
queue and accumulator left behind, plus ghost observations (whether an
empty queue was peeked, the anchor sample, the synthetic start-step
duration, the failure path taken). -/
structure PreOut where
  result : PimResult
  queue : List ImuMeasurement
  pim : Pim
  emptyPeek : Bool
  anchor : Option ImuMeasurement
  startDur : Option ℚ
  failKind : Option FailKind
deriving DecidableEq

/-- The anchor-search loop of `Preintegrate` (imu_manager.cpp lines
48-51): `imu = queue_.Pop(); while (ConvertToSeconds(queue_.PeekFront()
.timestamp) <= from_time) imu = queue_.Pop();`.  Returns the final value
of `imu` (the anchor), the remaining queue, and whether `PeekFront` was
evaluated on an empty queue (undefined behaviour in the C++, modelled as
loop exit with the flag set). -/
def anchorLoop (from_time : ℚ) : ImuMeasurement → List ImuMeasurement →
    ImuMeasurement × List ImuMeasurement × Bool
  | imu, [] => (imu, [], true)
  | imu, m :: rest =>
    if ConvertToSeconds m.timestamp ≤ from_time then anchorLoop from_time m rest
    else (imu, m :: rest, false)

/-- The integration loop of `Preintegrate` (imu_manager.cpp lines 69-75):
pop and integrate samples with time strictly below `to_time`, skipping
non-positive `dt`.  Arguments: `last_imu_time_sec`, current `imu`,
queue, accumulator; returns their final values. -/
def integrateLoop (to_time : ℚ) : ℚ → ImuMeasurement → List ImuMeasurement → Pim →
    ℚ × ImuMeasurement × List ImuMeasurement × Pim
  | last_sec, imu, [], pim => (last_sec, imu, [], pim)
  | last_sec, imu, m :: rest, pim =>
    if ConvertToSeconds m.timestamp < to_time then
      integrateLoop to_time (ConvertToSeconds m.timestamp) m rest
        (if 0 < qsub (ConvertToSeconds m.timestamp) last_sec then
          pim ++ [(m.a, m.w, qsub (ConvertToSeconds m.timestamp) last_sec)]
        else pim)
    else (last_sec, imu, m :: rest, pim)

/-- `offset_from_sec` of imu_manager.cpp line 56: absolute gap between
the anchor's time and `from_time`, or `0` when `from_time` is the
sentinel. -/
def offsetFromOf (from_time : ℚ) (anchor : ImuMeasurement) : ℚ :=
  if from_time ≠ kMinSeconds then qabs (qsub (ConvertToSeconds anchor.timestamp) from_time)
  else 0

/-- `offset_to_sec` of imu_manager.cpp line 80. -/
def offsetToOf (to_time : ℚ) (last : ImuMeasurement) : ℚ :=
  if to_time ≠ kMaxSeconds then qabs (qsub (ConvertToSeconds last.timestamp) to_time)
  else 0

/-- `ImuManager::Preintegrate(from_time, to_time)` (imu_manager.cpp lines
40-95), acting on an explicit state. -/
def preintegrate (params : Params) (s : ImuState) (from_time to_time : ℚ) : PreOut :=
  match s with
  | ⟨[], pim0⟩ =>
    { result := ⟨false, kMinSeconds, kMaxSeconds, []⟩, queue := [], pim := pim0,
      emptyPeek := false, anchor := none, startDur := none,
      failKind := some FailKind.emptyBuf }
  | ⟨first :: rest, pim0⟩ =>
    let al := anchorLoop from_time first rest
    let imu := al.1
    let q1 := al.2.1
    let ep := al.2.2
    let earliest_imu_sec := ConvertToSeconds imu.timestamp
    let offset_from_sec := offsetFromOf from_time imu
    if params.allowed_misalignment_sec < offset_from_sec then
      { result := ⟨false, kMinSeconds, kMaxSeconds, []⟩, queue := q1, pim := pim0,
        emptyPeek := ep, anchor := some imu, startDur := none,
        failKind := some FailKind.startMisalign }
    else
      let pim1 := if 0 < offset_from_sec then pim0 ++ [(imu.a, imu.w, offset_from_sec)]
        else pim0
      let il := integrateLoop to_time earliest_imu_sec imu q1 pim1
      let lastImu := il.2.1
      let q2 := il.2.2.1
      let pim2 := il.2.2.2
      let latest_imu_sec := ConvertToSeconds lastImu.timestamp
      let offset_to_sec := offsetToOf to_time lastImu
      if params.allowed_misalignment_sec < offset_to_sec then
        { result := ⟨false, kMinSeconds, kMaxSeconds, []⟩, queue := q2, pim := [],
          emptyPeek := ep, anchor := some imu,
          startDur := if 0 < offset_from_sec then some offset_from_sec else none,
          failKind := some FailKind.endMisalign }
      else
        let pim3 := if 0 < offset_to_sec then pim2 ++ [(lastImu.a, lastImu.w, offset_to_sec)]
          else pim2
        { result := ⟨true, earliest_imu_sec, latest_imu_sec, pim3⟩, queue := q2, pim := [],
          emptyPeek := ep, anchor := some imu,
          startDur := if 0 < offset_from_sec then some offset_from_sec else none,
          failKind := none }

/-- `ImuManager::DiscardBefore(time)` (imu_manager.cpp lines 104-109):
pops while `queue_.PeekFront().timestamp < time`.  Note the comparison is
between the RAW tick count and the `seconds_t` argument, exactly as in
the source (no `ConvertToSeconds`, unlike line 49). -/
def DiscardBefore (time : ℚ) : List ImuMeasurement → List ImuMeasurement
  | [] => []
  | m :: rest => if (m.timestamp : ℚ) < time then DiscardBefore time rest else m :: rest

/-! Structural lemmas about the two loops of `Preintegrate`. -/

theorem ConvertToSeconds_mono {a b : ℕ} (h : a ≤ b) :
    ConvertToSeconds a ≤ ConvertToSeconds b := by
  unfold ConvertToSeconds
  rw [Rat.mkRat_eq_div, Rat.mkRat_eq_div]
  gcongr

/-- The anchor returned by the anchor-search loop is the initially popped
sample or one of the samples popped from the queue. -/
theorem anchorLoop_fst_mem (f : ℚ) (imu : ImuMeasurement) (q : List ImuMeasurement) :
    (anchorLoop f imu q).1 = imu ∨ (anchorLoop f imu q).1 ∈ q := by
  induction q generalizing imu with
  | nil => exact Or.inl rfl
  | cons m rest ih =>
    simp only [anchorLoop]
    by_cases hc : ConvertToSeconds m.timestamp ≤ f
    · rw [if_pos hc]
      rcases ih m with h' | h'
      · exact Or.inr (by rw [h']; exact List.mem_cons_self m rest)
      · exact Or.inr (List.mem_cons_of_mem _ h')
    · rw [if_neg hc]
      exact Or.inl rfl

/-- The anchor-search loop only pops from the front: the remaining queue
is a suffix of the input queue. -/
theorem anchorLoop_queue_suffix (f : ℚ) (imu : ImuMeasurement) (q : List ImuMeasurement) :
    (anchorLoop f imu q).2.1 <:+ q := by
  induction q generalizing imu with
  | nil => exact List.nil_suffix
  | cons m rest ih =>
    simp only [anchorLoop]
    by_cases hc : ConvertToSeconds m.timestamp ≤ f
    · rw [if_pos hc]
      exact (ih m).trans (List.suffix_cons m rest)
    · rw [if_neg hc]

/-- If every queued sample is strictly later than `from_time`, the
anchor-search loop pops nothing. -/
theorem anchorLoop_no_pop (f : ℚ) (imu : ImuMeasurement) (q : List ImuMeasurement)
    (h : ∀ m ∈ q, f < ConvertToSeconds m.timestamp) :
    (anchorLoop f imu q).1 = imu ∧ (anchorLoop f imu q).2.1 = q := by
  cases q with
  | nil => exact ⟨rfl, rfl⟩
  | cons m rest =>
    have hm := h m (List.mem_cons_self m rest)
    simp only [anchorLoop]
    rw [if_neg (not_le.mpr hm)]
    exact ⟨rfl, rfl⟩

/-- The final `imu` of the integration loop is its initial `imu` or one of
the samples popped from the queue. -/
theorem integrateLoop_fst_mem (t ls : ℚ) (imu : ImuMeasurement)
    (q : List ImuMeasurement) (pim : Pim) :
    (integrateLoop t ls imu q pim).2.1 = imu ∨ (integrateLoop t ls imu q pim).2.1 ∈ q := by
  induction q generalizing ls imu pim with
  | nil => exact Or.inl rfl
  | cons m rest ih =>
    simp only [integrateLoop]
    by_cases hc : ConvertToSeconds m.timestamp < t
    · rw [if_pos hc]
      rcases ih (ConvertToSeconds m.timestamp) m
          (if 0 < qsub (ConvertToSeconds m.timestamp) ls then
            pim ++ [(m.a, m.w, qsub (ConvertToSeconds m.timestamp) ls)]
          else pim) with h' | h'
      · exact Or.inr (by rw [h']; exact List.mem_cons_self m rest)
      · exact Or.inr (List.mem_cons_of_mem _ h')
    · rw [if_neg hc]
      exact Or.inl rfl

/-- The integration loop only pops from the front: the remaining queue is
a suffix of the input queue. -/
theorem integrateLoop_queue_suffix (t ls : ℚ) (imu : ImuMeasurement)
    (q : List ImuMeasurement) (pim : Pim) :
    (integrateLoop t ls imu q pim).2.2.1 <:+ q := by
  induction q generalizing ls imu pim with
  | nil => exact List.nil_suffix
  | cons m rest ih =>
    simp only [integrateLoop]
    by_cases hc : ConvertToSeconds m.timestamp < t
    · rw [if_pos hc]
      exact (ih (ConvertToSeconds m.timestamp) m
        (if 0 < qsub (ConvertToSeconds m.timestamp) ls then
          pim ++ [(m.a, m.w, qsub (ConvertToSeconds m.timestamp) ls)]
        else pim)).trans (List.suffix_cons m rest)
    · rw [if_neg hc]

/-- The integration loop stops at the first sample at or after `to_time`:
if the remaining queue is non-empty, its front is at or after `to_time`. -/
theorem integrateLoop_head_ge (t ls : ℚ) (imu : ImuMeasurement)
    (q : List ImuMeasurement) (pim : Pim) (hq : ImuMeasurement)
    (rq : List ImuMeasurement)
    (h : (integrateLoop t ls imu q pim).2.2.1 = hq :: rq) :
    t ≤ ConvertToSeconds hq.timestamp := by
  induction q generalizing ls imu pim with
  | nil => simp [integrateLoop] at h
  | cons m rest ih =>
    simp only [integrateLoop] at h
    by_cases hc : ConvertToSeconds m.timestamp < t
    · rw [if_pos hc] at h
      exact ih (ConvertToSeconds m.timestamp) m
        (if 0 < qsub (ConvertToSeconds m.timestamp) ls then
          pim ++ [(m.a, m.w, qsub (ConvertToSeconds m.timestamp) ls)]
        else pim) h
    · rw [if_neg hc] at h
      have h' : m :: rest = hq :: rq := h
      obtain ⟨h1, -⟩ := List.cons_eq_cons.mp h'
      exact h1 ▸ le_of_not_lt hc

/-! Claim theorems. -/

/-- C1 (counterexample): the claim "whatever the entry state of the
accumulator ... the accumulator is at identity/zero when the call
returns" is false as stated: a call on an empty buffer returns without
resetting (imu_manager.cpp line 44 returns before any reset), so a
non-zero entry accumulator survives the call. -/
theorem preintegrate_nonzero_entry_survives_empty_buffer :
    (preintegrate ⟨1⟩ ⟨[], [((1, 1, 1), (2, 2, 2), 3)]⟩ 0 1).pim ≠ [] := by decide

/-- C1 (amended): every `Preintegrate` call that is entered with the
accumulator at zero returns with the accumulator at zero, on all four
paths (empty buffer, start misalignment, end misalignment, success).
Since the accumulator starts at zero and is mutated only by
`Preintegrate` and `ResetAndUpdateBias` (which zeroes it), the
accumulator is at zero whenever a call returns in a reachable
execution. -/
theorem preintegrate_zero_acc_preserved (params : Params) (s : ImuState)
    (from_time to_time : ℚ) (h : s.pim = []) :
    (preintegrate params s from_time to_time).pim = [] := by
  obtain ⟨q, pim0⟩ := s
  simp only at h
  subst h
  cases q with
  | nil => rfl
  | cons first rest =>
    simp only [preintegrate]
    split_ifs <;> rfl

/-- C1 (witness): the amended theorem applied at a concrete state. -/
theorem preintegrate_zero_acc_preserved_witness :
    (⟨[⟨1000000000, (0, 0, 0), (1, 1, 1)⟩], []⟩ : ImuState).pim = [] ∧
    (preintegrate ⟨1⟩ ⟨[⟨1000000000, (0, 0, 0), (1, 1, 1)⟩], []⟩ 0 2).pim = [] :=
  ⟨rfl, preintegrate_zero_acc_preserved ⟨1⟩ ⟨[⟨1000000000, (0, 0, 0), (1, 1, 1)⟩], []⟩ 0 2 rfl⟩

/-- C3: if a concrete (non-sentinel) boundary of the requested window has
no sample within the allowed misalignment tolerance (every queued
sample's time differs from that boundary by more than the tolerance),
then `Preintegrate` returns an invalid result and leaves the accumulator
at zero (entered, as in every reachable state, with a zero
accumulator). -/
theorem preintegrate_misaligned_invalid_and_zeroed (params : Params) (s : ImuState)
    (from_time to_time : ℚ) (hzero : s.pim = [])
    (hmis :
      (from_time ≠ kMinSeconds ∧ ∀ m ∈ s.queue,
        params.allowed_misalignment_sec < qabs (qsub (ConvertToSeconds m.timestamp) from_time)) ∨
      (to_time ≠ kMaxSeconds ∧ ∀ m ∈ s.queue,
        params.allowed_misalignment_sec < qabs (qsub (ConvertToSeconds m.timestamp) to_time))) :
    (preintegrate params s from_time to_time).result.valid = false ∧
    (preintegrate params s from_time to_time).pim = [] := by
  obtain ⟨q, pim0⟩ := s
  simp only at hzero hmis
  subst hzero
  cases q with
  | nil => exact ⟨rfl, rfl⟩
  | cons first rest =>
    simp only [preintegrate]
    have hAmem : (anchorLoop from_time first rest).1 ∈ first :: rest := by
      rcases anchorLoop_fst_mem from_time first rest with h | h
      · rw [h]; exact List.mem_cons_self first rest
      · exact List.mem_cons_of_mem _ h
    rcases hmis with ⟨hf, hall⟩ | ⟨ht, hall⟩
    · have hoff : params.allowed_misalignment_sec <
          offsetFromOf from_time (anchorLoop from_time first rest).1 := by
        rw [offsetFromOf, if_pos hf]
        exact hall _ hAmem
      rw [if_pos hoff]
      exact ⟨rfl, rfl⟩
    · by_cases hoff : params.allowed_misalignment_sec <
          offsetFromOf from_time (anchorLoop from_time first rest).1
      · rw [if_pos hoff]
        exact ⟨rfl, rfl⟩
      · rw [if_neg hoff]
        have hLmem : (integrateLoop to_time
            (ConvertToSeconds (anchorLoop from_time first rest).1.timestamp)
            (anchorLoop from_time first rest).1 (anchorLoop from_time first rest).2.1
            (if 0 < offsetFromOf from_time (anchorLoop from_time first rest).1 then
              [] ++ [((anchorLoop from_time first rest).1.a, (anchorLoop from_time first rest).1.w,
                offsetFromOf from_time (anchorLoop from_time first rest).1)]
            else [])).2.1 ∈ first :: rest := by
          rcases integrateLoop_fst_mem to_time
              (ConvertToSeconds (anchorLoop from_time first rest).1.timestamp)
              (anchorLoop from_time first rest).1 (anchorLoop from_time first rest).2.1
              (if 0 < offsetFromOf from_time (anchorLoop from_time first rest).1 then
                [] ++ [((anchorLoop from_time first rest).1.a, (anchorLoop from_time first rest).1.w,
                  offsetFromOf from_time (anchorLoop from_time first rest).1)]
              else []) with h | h
          · rw [h]; exact hAmem
          · exact List.mem_cons_of_mem _
              ((anchorLoop_queue_suffix from_time first rest).subset h)
        have hoff2 : params.allowed_misalignment_sec < offsetToOf to_time
            (integrateLoop to_time
              (ConvertToSeconds (anchorLoop from_time first rest).1.timestamp)
              (anchorLoop from_time first rest).1 (anchorLoop from_time first rest).2.1
              (if 0 < offsetFromOf from_time (anchorLoop from_time first rest).1 then
                [] ++ [((anchorLoop from_time first rest).1.a, (anchorLoop from_time first rest).1.w,
                  offsetFromOf from_time (anchorLoop from_time first rest).1)]
              else [])).2.1 := by
          rw [offsetToOf, if_pos ht]
          exact hall _ hLmem
        rw [if_pos hoff2]
        exact ⟨rfl, rfl⟩

/-- C3 (witness): a buffer whose only sample (at 2 s) is more than the
tolerance 1/2 s away from the concrete start boundary 1 s. -/
theorem preintegrate_misaligned_invalid_and_zeroed_witness :
    ((⟨[⟨2000000000, (9, 9, 9), (9, 9, 9)⟩], []⟩ : ImuState).pim = [] ∧
      (1 : ℚ) ≠ kMinSeconds ∧
      (∀ m ∈ (⟨[⟨2000000000, (9, 9, 9), (9, 9, 9)⟩], []⟩ : ImuState).queue,
        (⟨mkRat 1 2⟩ : Params).allowed_misalignment_sec <
          qabs (qsub (ConvertToSeconds m.timestamp) 1))) ∧
    (preintegrate ⟨mkRat 1 2⟩ ⟨[⟨2000000000, (9, 9, 9), (9, 9, 9)⟩], []⟩ 1 3).result.valid
      = false ∧
    (preintegrate ⟨mkRat 1 2⟩ ⟨[⟨2000000000, (9, 9, 9), (9, 9, 9)⟩], []⟩ 1 3).pim = [] :=
  ⟨⟨by decide, by decide, by decide⟩,
    preintegrate_misaligned_invalid_and_zeroed ⟨mkRat 1 2⟩
      ⟨[⟨2000000000, (9, 9, 9), (9, 9, 9)⟩], []⟩ 1 3 rfl
      (Or.inl ⟨by decide, by decide⟩)⟩

/-- C4 (counterexample): the claim "a synthetic start step is performed
iff the anchor is strictly after `from_time`" is false: with samples at
0.9 s and 2 s, window [1, 1.05] and tolerance 0.2, the anchor (0.9 s) is
strictly BEFORE `from_time = 1`, yet a synthetic start step of duration
|0.9 - 1| = 0.1 is integrated (the code tests `offset_from_sec > 0`,
an absolute gap, imu_manager.cpp lines 56 and 64). -/
theorem preintegrate_start_step_with_anchor_before_from :
    (preintegrate ⟨mkRat 1 5⟩ ⟨[⟨900000000, (1, 2, 3), (4, 5, 6)⟩,
        ⟨2000000000, (9, 9, 9), (9, 9, 9)⟩], []⟩ 1 (mkRat 21 20)).anchor
      = some ⟨900000000, (1, 2, 3), (4, 5, 6)⟩ ∧
    ConvertToSeconds 900000000 < 1 ∧
    (preintegrate ⟨mkRat 1 5⟩ ⟨[⟨900000000, (1, 2, 3), (4, 5, 6)⟩,
        ⟨2000000000, (9, 9, 9), (9, 9, 9)⟩], []⟩ 1 (mkRat 21 20)).startDur
      = some (mkRat 1 10) ∧
    (preintegrate ⟨mkRat 1 5⟩ ⟨[⟨900000000, (1, 2, 3), (4, 5, 6)⟩,
        ⟨2000000000, (9, 9, 9), (9, 9, 9)⟩], []⟩ 1 (mkRat 21 20)).result.valid = true := by
  decide

/-- C4 (amended): on a non-empty buffer the synthetic start step is
integrated iff the start-misalignment check passes and
`offset_from_sec > 0`, where `offset_from_sec` is the ABSOLUTE gap
`|anchor time - from_time|` for a concrete `from_time` (and `0` for the
sentinel); its duration is that absolute gap — also when the anchor lies
strictly before `from_time`. -/
theorem preintegrate_start_step_characterization (params : Params) (s : ImuState)
    (from_time to_time : ℚ) (h : s.queue ≠ []) :
    ∃ A, (preintegrate params s from_time to_time).anchor = some A ∧
      (preintegrate params s from_time to_time).startDur =
        (if offsetFromOf from_time A ≤ params.allowed_misalignment_sec ∧
            0 < offsetFromOf from_time A
         then some (offsetFromOf from_time A) else none) := by
  obtain ⟨q, pim0⟩ := s
  simp only at h
  cases q with
  | nil => exact absurd rfl h
  | cons first rest =>
    refine ⟨(anchorLoop from_time first rest).1, ?_⟩
    simp only [preintegrate]
    by_cases hoff : params.allowed_misalignment_sec <
        offsetFromOf from_time (anchorLoop from_time first rest).1
    · rw [if_pos hoff]
      refine ⟨rfl, ?_⟩
      rw [if_neg]
      rintro ⟨hle, -⟩
      exact absurd hoff (not_lt.mpr hle)
    · have hle : offsetFromOf from_time (anchorLoop from_time first rest).1 ≤
          params.allowed_misalignment_sec := not_lt.mp hoff
      rw [if_neg hoff]
      by_cases hpos : 0 < offsetFromOf from_time (anchorLoop from_time first rest).1
      · have hc2 : offsetFromOf from_time (anchorLoop from_time first rest).1 ≤
            params.allowed_misalignment_sec ∧
            0 < offsetFromOf from_time (anchorLoop from_time first rest).1 := ⟨hle, hpos⟩
        by_cases hoff2 : params.allowed_misalignment_sec < offsetToOf to_time
            (integrateLoop to_time
              (ConvertToSeconds (anchorLoop from_time first rest).1.timestamp)
              (anchorLoop from_time first rest).1 (anchorLoop from_time first rest).2.1
              (if 0 < offsetFromOf from_time (anchorLoop from_time first rest).1 then
                pim0 ++ [((anchorLoop from_time first rest).1.a,
                  (anchorLoop from_time first rest).1.w,
                  offsetFromOf from_time (anchorLoop from_time first rest).1)]
              else pim0)).2.1
        · rw [if_pos hoff2]
          exact ⟨rfl, by simp only [if_pos hpos, if_pos hc2]⟩
        · rw [if_neg hoff2]
          exact ⟨rfl, by simp only [if_pos hpos, if_pos hc2]⟩
      · have hc2 : ¬(offsetFromOf from_time (anchorLoop from_time first rest).1 ≤
            params.allowed_misalignment_sec ∧
            0 < offsetFromOf from_time (anchorLoop from_time first rest).1) :=
          fun hh => hpos hh.2
        by_cases hoff2 : params.allowed_misalignment_sec < offsetToOf to_time
            (integrateLoop to_time
              (ConvertToSeconds (anchorLoop from_time first rest).1.timestamp)
              (anchorLoop from_time first rest).1 (anchorLoop from_time first rest).2.1
              (if 0 < offsetFromOf from_time (anchorLoop from_time first rest).1 then
                pim0 ++ [((anchorLoop from_time first rest).1.a,
                  (anchorLoop from_time first rest).1.w,
                  offsetFromOf from_time (anchorLoop from_time first rest).1)]
              else pim0)).2.1
        · rw [if_pos hoff2]
          exact ⟨rfl, by simp only [if_neg hpos, if_neg hc2]⟩
        · rw [if_neg hoff2]
          exact ⟨rfl, by simp only [if_neg hpos, if_neg hc2]⟩

/-- C4 (witness): the amended characterization applied to a concrete
one-sample buffer. -/
theorem preintegrate_start_step_characterization_witness :
    ((⟨[⟨900000000, (1, 2, 3), (4, 5, 6)⟩], []⟩ : ImuState).queue ≠ []) ∧
    (∃ A, (preintegrate ⟨1⟩ ⟨[⟨900000000, (1, 2, 3), (4, 5, 6)⟩], []⟩ 1 2).anchor = some A ∧
      (preintegrate ⟨1⟩ ⟨[⟨900000000, (1, 2, 3), (4, 5, 6)⟩], []⟩ 1 2).startDur =
        (if offsetFromOf 1 A ≤ (⟨1⟩ : Params).allowed_misalignment_sec ∧
            0 < offsetFromOf 1 A
         then some (offsetFromOf 1 A) else none)) :=
  ⟨by decide,
    preintegrate_start_step_characterization ⟨1⟩
      ⟨[⟨900000000, (1, 2, 3), (4, 5, 6)⟩], []⟩ 1 2 (by decide)⟩

/-- C5: for every empty-buffer state (any entry accumulator) and all
arguments, `Preintegrate` returns `PimResult(false, kMinSeconds,
kMaxSeconds, zero)` — invalid, with the sentinel pair in place of a
covered time range (imu_manager.cpp lines 43-45). -/
theorem preintegrate_empty_buffer_invalid_no_range (params : Params) (pim0 : Pim)
    (from_time to_time : ℚ) :
    (preintegrate params ⟨[], pim0⟩ from_time to_time).result.valid = false ∧
    (preintegrate params ⟨[], pim0⟩ from_time to_time).result.from_time = kMinSeconds ∧
    (preintegrate params ⟨[], pim0⟩ from_time to_time).result.to_time = kMaxSeconds ∧
    (preintegrate params ⟨[], pim0⟩ from_time to_time).result.pim = [] :=
  ⟨rfl, rfl, rfl, rfl⟩

/-- C2 (code bug, evaluated at the failing input): `DiscardBefore`
compares the RAW tick timestamp against the `seconds_t` bound
(imu_manager.cpp line 106, without the `ConvertToSeconds` used at line
49).  A buffer holding one sample at 2 s (raw 2000000000 ticks) is left
untouched by `DiscardBefore(5)`, although its front sample's time, 2 s,
is below 5 s. -/
theorem discardBefore_leaves_stale_front :
    DiscardBefore 5 [⟨2000000000, (9, 9, 9), (9, 9, 9)⟩]
      = [⟨2000000000, (9, 9, 9), (9, 9, 9)⟩] ∧
    ConvertToSeconds 2000000000 < 5 := by decide

/-- C9 (code bug, evaluated at the failing input): on a single-sample
buffer, the anchor-search loop pops the only sample and then evaluates
`queue_.PeekFront()` on the now-empty queue (imu_manager.cpp line 49 has
no emptiness guard, unlike the loop at line 70). -/
theorem preintegrate_peeks_empty_queue_single_sample :
    (preintegrate ⟨1⟩ ⟨[⟨1000000000, (0, 0, 0), (1, 1, 1)⟩], []⟩ 0 2).emptyPeek = true := by
  decide

/-! The Levenberg-Marquardt accept/reject loop. -/

/-- Modelled from the spec: the factor by which the damping factor is
increased on a rejected step (the optimizer implementation
`src/vo/optimization.cpp` is not under src/; the spec only says damping
"is increased"). -/
def kLambdaUp : ℚ := 10

/-- Modelled from the spec: reciprocal of the factor by which damping is
decreased on an accepted step. -/
def kLambdaDownInv : ℚ := mkRat 1 10

/-- Modelled from the spec: the per-iteration state of
`OptimizePoseLevenbergMarquardt` — current pose, its total weighted
squared reprojection error, and the scalar damping factor. -/
structure LMState (Pose : Type) where
  pose : Pose
  err : ℚ
  damping : ℚ
deriving DecidableEq

/-- Modelled from the spec: one Levenberg-Marquardt iteration
(`OptimizePoseLevenbergMarquardt` is not under src/, only its test).
Spec section 4.3: a proposed step is solved from the damped normal
equations (`solveStep`, abstract here, already composed onto the pose)
and its error evaluated; "if it reduces total error, the step is
accepted, the pose is updated, and damping is decreased (trust region
grows); if it increases error, the step is rejected, the pose is left
unchanged, and damping is increased (trust region shrinks)". -/
def lmStep {Pose : Type} (errFn : Pose → ℚ) (solveStep : Pose → ℚ → Pose)
    (s : LMState Pose) : LMState Pose :=
  if errFn (solveStep s.pose s.damping) < s.err then
    ⟨solveStep s.pose s.damping, errFn (solveStep s.pose s.damping),
      qmul s.damping kLambdaDownInv⟩
  else ⟨s.pose, s.err, qmul s.damping kLambdaUp⟩

/-- C7: across a Levenberg-Marquardt run, the tracked error never
increases from one iteration to the next; the pose changes only when the
proposal strictly decreased the tracked error; and whenever the proposal
fails to decrease the error, the pose is left unchanged and the damping
factor is increased (multiplied by `kLambdaUp`), so the iteration is
retried with stronger damping. -/
theorem lmStep_error_monotone {Pose : Type} (errFn : Pose → ℚ)
    (solveStep : Pose → ℚ → Pose) (s0 : LMState Pose) (n : ℕ) :
    ((lmStep errFn solveStep)^[n + 1] s0).err ≤ ((lmStep errFn solveStep)^[n] s0).err ∧
    (((lmStep errFn solveStep)^[n + 1] s0).pose ≠ ((lmStep errFn solveStep)^[n] s0).pose →
      ((lmStep errFn solveStep)^[n + 1] s0).err < ((lmStep errFn solveStep)^[n] s0).err) ∧
    (((lmStep errFn solveStep)^[n] s0).err ≤
        errFn (solveStep ((lmStep errFn solveStep)^[n] s0).pose
          ((lmStep errFn solveStep)^[n] s0).damping) →
      ((lmStep errFn solveStep)^[n + 1] s0).pose = ((lmStep errFn solveStep)^[n] s0).pose ∧
      ((lmStep errFn solveStep)^[n + 1] s0).damping =
        qmul ((lmStep errFn solveStep)^[n] s0).damping kLambdaUp) := by
  rw [Function.iterate_succ_apply']
  generalize (lmStep errFn solveStep)^[n] s0 = s
  unfold lmStep
  split_ifs with hacc
  · exact ⟨le_of_lt hacc, fun _ => hacc, fun hge => absurd hacc (not_lt.mpr hge)⟩
  · exact ⟨le_refl _, fun hne => absurd rfl hne, fun _ => ⟨rfl, rfl⟩⟩

/-- C7 (witness): the theorem applied to a concrete run (pose type `ℚ`,
error = square of the pose, proposal = decrement the pose). -/
theorem lmStep_error_monotone_witness :
    ((lmStep (fun p => qmul p p) (fun p _ => qsub p 1))^[1] ⟨2, 4, 1⟩).err ≤
      ((lmStep (fun p => qmul p p) (fun p _ => qsub p 1))^[0] ⟨2, 4, 1⟩).err ∧
    (((lmStep (fun p => qmul p p) (fun p _ => qsub p 1))^[1] ⟨2, 4, 1⟩).pose ≠
        ((lmStep (fun p => qmul p p) (fun p _ => qsub p 1))^[0] ⟨2, 4, 1⟩).pose →
      ((lmStep (fun p => qmul p p) (fun p _ => qsub p 1))^[1] ⟨2, 4, 1⟩).err <
        ((lmStep (fun p => qmul p p) (fun p _ => qsub p 1))^[0] ⟨2, 4, 1⟩).err) ∧
    (((lmStep (fun p => qmul p p) (fun p _ => qsub p 1))^[0] ⟨2, 4, 1⟩).err ≤
        (fun p => qmul p p) ((fun p _ => qsub p 1)
          ((lmStep (fun p => qmul p p) (fun p _ => qsub p 1))^[0] ⟨2, 4, 1⟩).pose
          ((lmStep (fun p => qmul p p) (fun p _ => qsub p 1))^[0] ⟨2, 4, 1⟩).damping) →
      ((lmStep (fun p => qmul p p) (fun p _ => qsub p 1))^[1] ⟨2, 4, 1⟩).pose =
        ((lmStep (fun p => qmul p p) (fun p _ => qsub p 1))^[0] ⟨2, 4, 1⟩).pose ∧
      ((lmStep (fun p => qmul p p) (fun p _ => qsub p 1))^[1] ⟨2, 4, 1⟩).damping =
        qmul ((lmStep (fun p => qmul p p) (fun p _ => qsub p 1))^[0] ⟨2, 4, 1⟩).damping
          kLambdaUp) :=
  lmStep_error_monotone (fun p => qmul p p) (fun p _ => qsub p 1) ⟨2, 4, 1⟩ 0

/-- C6 (counterexample): a second identical `Preintegrate` call after a
successful one can ALSO succeed when the window is shorter than the
misalignment tolerance and a sample at or after `to_time` remains within
tolerance of both boundaries: with tolerance 0.01 s, window
[1, 1.001] and samples at 1, 1.0005, 1.002 and 1.5 s, both calls return
valid. -/
theorem preintegrate_second_call_succeeds :
    (preintegrate ⟨mkRat 1 100⟩ ⟨[⟨1000000000, (0, 0, 0), (0, 0, 0)⟩,
        ⟨1000500000, (1, 1, 1), (1, 1, 1)⟩, ⟨1002000000, (2, 2, 2), (2, 2, 2)⟩,
        ⟨1500000000, (3, 3, 3), (3, 3, 3)⟩], []⟩ 1 (mkRat 1001 1000)).result.valid = true ∧
    (preintegrate ⟨mkRat 1 100⟩
      ⟨(preintegrate ⟨mkRat 1 100⟩ ⟨[⟨1000000000, (0, 0, 0), (0, 0, 0)⟩,
          ⟨1000500000, (1, 1, 1), (1, 1, 1)⟩, ⟨1002000000, (2, 2, 2), (2, 2, 2)⟩,
          ⟨1500000000, (3, 3, 3), (3, 3, 3)⟩], []⟩ 1 (mkRat 1001 1000)).queue,
       (preintegrate ⟨mkRat 1 100⟩ ⟨[⟨1000000000, (0, 0, 0), (0, 0, 0)⟩,
          ⟨1000500000, (1, 1, 1), (1, 1, 1)⟩, ⟨1002000000, (2, 2, 2), (2, 2, 2)⟩,
          ⟨1500000000, (3, 3, 3), (3, 3, 3)⟩], []⟩ 1 (mkRat 1001 1000)).pim⟩
      1 (mkRat 1001 1000)).result.valid = true := by
  decide

/-- C6 (amended): on a time-sorted buffer, if the first call succeeds,
`from_time` is concrete, and the window length `to_time - from_time`
exceeds the (non-negative) misalignment tolerance, then a second call
with identical arguments and no intervening pushes returns an invalid
result: the samples below `to_time` were drained, so the second anchor
lies at or after `to_time` and fails the start-misalignment check (or
the buffer is empty). -/
theorem preintegrate_second_call_invalid (params : Params) (s : ImuState) (f t : ℚ)
    (hsort : List.Pairwise (fun a b : ImuMeasurement => a.timestamp ≤ b.timestamp) s.queue)
    (htol : 0 ≤ params.allowed_misalignment_sec)
    (hf : f ≠ kMinSeconds)
    (hwin : params.allowed_misalignment_sec < qsub t f)
    (hvalid : (preintegrate params s f t).result.valid = true) :
    (preintegrate params
      ⟨(preintegrate params s f t).queue, (preintegrate params s f t).pim⟩ f t).result.valid
      = false := by
  rw [qsub_eq] at hwin
  have hft : f < t := sub_pos.mp (lt_of_le_of_lt htol hwin)
  obtain ⟨q, pim0⟩ := s
  simp only at hsort
  cases q with
  | nil => simp [preintegrate] at hvalid
  | cons first rest =>
    simp only [preintegrate] at hvalid ⊢
    by_cases hoff : params.allowed_misalignment_sec <
        offsetFromOf f (anchorLoop f first rest).1
    · rw [if_pos hoff] at hvalid
      simp at hvalid
    · rw [if_neg hoff] at hvalid ⊢
      by_cases hoff2 : params.allowed_misalignment_sec < offsetToOf t
          (integrateLoop t (ConvertToSeconds (anchorLoop f first rest).1.timestamp)
            (anchorLoop f first rest).1 (anchorLoop f first rest).2.1
            (if 0 < offsetFromOf f (anchorLoop f first rest).1 then
              pim0 ++ [((anchorLoop f first rest).1.a, (anchorLoop f first rest).1.w,
                offsetFromOf f (anchorLoop f first rest).1)]
            else pim0)).2.1
      · rw [if_pos hoff2] at hvalid
        simp at hvalid
      · rw [if_neg hoff2]
        have hsufq1 := (integrateLoop_queue_suffix t
            (ConvertToSeconds (anchorLoop f first rest).1.timestamp)
            (anchorLoop f first rest).1 (anchorLoop f first rest).2.1
            (if 0 < offsetFromOf f (anchorLoop f first rest).1 then
              pim0 ++ [((anchorLoop f first rest).1.a, (anchorLoop f first rest).1.w,
                offsetFromOf f (anchorLoop f first rest).1)]
            else pim0)).trans
          ((anchorLoop_queue_suffix f first rest).trans (List.suffix_cons first rest))
        rcases hq2 : (integrateLoop t (ConvertToSeconds (anchorLoop f first rest).1.timestamp)
            (anchorLoop f first rest).1 (anchorLoop f first rest).2.1
            (if 0 < offsetFromOf f (anchorLoop f first rest).1 then
              pim0 ++ [((anchorLoop f first rest).1.a, (anchorLoop f first rest).1.w,
                offsetFromOf f (anchorLoop f first rest).1)]
            else pim0)).2.2.1 with _ | ⟨h2, r2⟩
        · exact rfl
        · rw [hq2] at hsufq1
          have hhead : t ≤ ConvertToSeconds h2.timestamp :=
            integrateLoop_head_ge _ _ _ _ _ _ _ hq2
          have hpw : List.Pairwise (fun a b : ImuMeasurement => a.timestamp ≤ b.timestamp)
              (h2 :: r2) := hsort.sublist hsufq1.sublist
          have hall : ∀ m ∈ r2, f < ConvertToSeconds m.timestamp := fun m hm =>
            lt_of_lt_of_le hft (le_trans hhead
              (ConvertToSeconds_mono ((List.pairwise_cons.mp hpw).1 m hm)))
          obtain ⟨ha1, -⟩ := anchorLoop_no_pop f h2 r2 hall
          show (preintegrate params ⟨h2 :: r2, []⟩ f t).result.valid = false
          simp only [preintegrate]
          have hoffBig : params.allowed_misalignment_sec <
              offsetFromOf f (anchorLoop f h2 r2).1 := by
            rw [ha1, offsetFromOf, if_pos hf, qabs_eq, qsub_eq]
            have h1 : t - f ≤ ConvertToSeconds h2.timestamp - f := by linarith
            have h2' : t - f ≤ |ConvertToSeconds h2.timestamp - f| :=
              le_trans h1 (le_abs_self _)
            linarith
          rw [if_pos hoffBig]

/-- C6 (witness): tolerance 0.2 s, window [1, 1.5], samples at 1, 1.4
and 1.6 s — the first call succeeds, the second is invalid. -/
theorem preintegrate_second_call_invalid_witness :
    (List.Pairwise (fun a b : ImuMeasurement => a.timestamp ≤ b.timestamp)
        [⟨1000000000, (0, 0, 0), (1, 1, 1)⟩, ⟨1400000000, (2, 2, 2), (3, 3, 3)⟩,
          ⟨1600000000, (7, 7, 7), (8, 8, 8)⟩] ∧
      (0 : ℚ) ≤ mkRat 1 5 ∧ (1 : ℚ) ≠ kMinSeconds ∧ mkRat 1 5 < qsub (mkRat 3 2) 1 ∧
      (preintegrate ⟨mkRat 1 5⟩ ⟨[⟨1000000000, (0, 0, 0), (1, 1, 1)⟩,
          ⟨1400000000, (2, 2, 2), (3, 3, 3)⟩, ⟨1600000000, (7, 7, 7), (8, 8, 8)⟩], []⟩
        1 (mkRat 3 2)).result.valid = true) ∧
    (preintegrate ⟨mkRat 1 5⟩
      ⟨(preintegrate ⟨mkRat 1 5⟩ ⟨[⟨1000000000, (0, 0, 0), (1, 1, 1)⟩,
          ⟨1400000000, (2, 2, 2), (3, 3, 3)⟩, ⟨1600000000, (7, 7, 7), (8, 8, 8)⟩], []⟩
          1 (mkRat 3 2)).queue,
        (preintegrate ⟨mkRat 1 5⟩ ⟨[⟨1000000000, (0, 0, 0), (1, 1, 1)⟩,
          ⟨1400000000, (2, 2, 2), (3, 3, 3)⟩, ⟨1600000000, (7, 7, 7), (8, 8, 8)⟩], []⟩
          1 (mkRat 3 2)).pim⟩ 1 (mkRat 3 2)).result.valid = false :=
  ⟨⟨by decide, by decide, by decide, by decide, by decide⟩,
    preintegrate_second_call_invalid ⟨mkRat 1 5⟩
      ⟨[⟨1000000000, (0, 0, 0), (1, 1, 1)⟩, ⟨1400000000, (2, 2, 2), (3, 3, 3)⟩,
        ⟨1600000000, (7, 7, 7), (8, 8, 8)⟩], []⟩ 1 (mkRat 3 2)
      (by decide) (by decide) (by decide) (by decide) (by decide)⟩

/-- C10: a `Preintegrate` call on a time-sorted buffer that takes the
end-misalignment failure return has permanently consumed buffer samples:
the result is invalid, yet the remaining queue is a strictly shorter
suffix of the original (the anchor at least is gone), and every
remaining sample is at or after `to_time` — so the anchor and every
popped sample below `to_time` have been removed despite the failure;
the failure is not atomic with respect to the buffer. -/
theorem preintegrate_end_misalign_buffer_consumed (params : Params) (s : ImuState) (f t : ℚ)
    (hsort : List.Pairwise (fun a b : ImuMeasurement => a.timestamp ≤ b.timestamp) s.queue)
    (hfail : (preintegrate params s f t).failKind = some FailKind.endMisalign) :
    (preintegrate params s f t).result.valid = false ∧
    (preintegrate params s f t).queue <:+ s.queue ∧
    (preintegrate params s f t).queue.length < s.queue.length ∧
    ∀ m ∈ (preintegrate params s f t).queue, t ≤ ConvertToSeconds m.timestamp := by
  obtain ⟨q, pim0⟩ := s
  simp only at hsort
  cases q with
  | nil => simp [preintegrate] at hfail
  | cons first rest =>
    simp only [preintegrate] at hfail ⊢
    by_cases hoff : params.allowed_misalignment_sec <
        offsetFromOf f (anchorLoop f first rest).1
    · rw [if_pos hoff] at hfail
      simp at hfail
    · rw [if_neg hoff] at hfail ⊢
      by_cases hoff2 : params.allowed_misalignment_sec < offsetToOf t
          (integrateLoop t (ConvertToSeconds (anchorLoop f first rest).1.timestamp)
            (anchorLoop f first rest).1 (anchorLoop f first rest).2.1
            (if 0 < offsetFromOf f (anchorLoop f first rest).1 then
              pim0 ++ [((anchorLoop f first rest).1.a, (anchorLoop f first rest).1.w,
                offsetFromOf f (anchorLoop f first rest).1)]
            else pim0)).2.1
      · rw [if_pos hoff2]
        have hsufq1 : (integrateLoop t (ConvertToSeconds (anchorLoop f first rest).1.timestamp)
            (anchorLoop f first rest).1 (anchorLoop f first rest).2.1
            (if 0 < offsetFromOf f (anchorLoop f first rest).1 then
              pim0 ++ [((anchorLoop f first rest).1.a, (anchorLoop f first rest).1.w,
                offsetFromOf f (anchorLoop f first rest).1)]
            else pim0)).2.2.1 <:+ rest :=
          (integrateLoop_queue_suffix t
            (ConvertToSeconds (anchorLoop f first rest).1.timestamp)
            (anchorLoop f first rest).1 (anchorLoop f first rest).2.1
            (if 0 < offsetFromOf f (anchorLoop f first rest).1 then
              pim0 ++ [((anchorLoop f first rest).1.a, (anchorLoop f first rest).1.w,
                offsetFromOf f (anchorLoop f first rest).1)]
            else pim0)).trans
            (anchorLoop_queue_suffix f first rest)
        refine ⟨rfl, hsufq1.trans (List.suffix_cons first rest), ?_, ?_⟩
        · exact lt_of_le_of_lt hsufq1.length_le (by simp [List.length_cons])
        · intro m hm
          rcases hq2 : (integrateLoop t
              (ConvertToSeconds (anchorLoop f first rest).1.timestamp)
              (anchorLoop f first rest).1 (anchorLoop f first rest).2.1
              (if 0 < offsetFromOf f (anchorLoop f first rest).1 then
                pim0 ++ [((anchorLoop f first rest).1.a, (anchorLoop f first rest).1.w,
                  offsetFromOf f (anchorLoop f first rest).1)]
              else pim0)).2.2.1 with _ | ⟨h2, r2⟩
          · rw [hq2] at hm
            exact absurd hm (List.not_mem_nil m)
          · rw [hq2] at hm
            have hhead : t ≤ ConvertToSeconds h2.timestamp :=
              integrateLoop_head_ge _ _ _ _ _ _ _ hq2
            have hpw : List.Pairwise (fun a b : ImuMeasurement => a.timestamp ≤ b.timestamp)
                (h2 :: r2) := by
              rw [hq2] at hsufq1
              exact hsort.sublist (hsufq1.trans (List.suffix_cons first rest)).sublist
            rcases List.mem_cons.mp hm with rfl | hm'
            · exact hhead
            · exact le_trans hhead
                (ConvertToSeconds_mono ((List.pairwise_cons.mp hpw).1 m hm'))
      · rw [if_neg hoff2] at hfail
        simp at hfail

/-- C10 (witness): tolerance 0.01 s, window [1, 1.5], samples at 1, 1.4
and 1.6 s — the call fails on end misalignment (|1.4 - 1.5| > 0.01) and
has consumed the samples at 1 and 1.4 s. -/
theorem preintegrate_end_misalign_buffer_consumed_witness :
    (List.Pairwise (fun a b : ImuMeasurement => a.timestamp ≤ b.timestamp)
        [⟨1000000000, (0, 0, 0), (1, 1, 1)⟩, ⟨1400000000, (2, 2, 2), (3, 3, 3)⟩,
          ⟨1600000000, (7, 7, 7), (8, 8, 8)⟩] ∧
      (preintegrate ⟨mkRat 1 100⟩ ⟨[⟨1000000000, (0, 0, 0), (1, 1, 1)⟩,
          ⟨1400000000, (2, 2, 2), (3, 3, 3)⟩, ⟨1600000000, (7, 7, 7), (8, 8, 8)⟩], []⟩
        1 (mkRat 3 2)).failKind = some FailKind.endMisalign) ∧
    ((preintegrate ⟨mkRat 1 100⟩ ⟨[⟨1000000000, (0, 0, 0), (1, 1, 1)⟩,
          ⟨1400000000, (2, 2, 2), (3, 3, 3)⟩, ⟨1600000000, (7, 7, 7), (8, 8, 8)⟩], []⟩
        1 (mkRat 3 2)).result.valid = false ∧
      (preintegrate ⟨mkRat 1 100⟩ ⟨[⟨1000000000, (0, 0, 0), (1, 1, 1)⟩,
          ⟨1400000000, (2, 2, 2), (3, 3, 3)⟩, ⟨1600000000, (7, 7, 7), (8, 8, 8)⟩], []⟩
        1 (mkRat 3 2)).queue <:+
        (⟨[⟨1000000000, (0, 0, 0), (1, 1, 1)⟩, ⟨1400000000, (2, 2, 2), (3, 3, 3)⟩,
          ⟨1600000000, (7, 7, 7), (8, 8, 8)⟩], []⟩ : ImuState).queue ∧
      (preintegrate ⟨mkRat 1 100⟩ ⟨[⟨1000000000, (0, 0, 0), (1, 1, 1)⟩,
          ⟨1400000000, (2, 2, 2), (3, 3, 3)⟩, ⟨1600000000, (7, 7, 7), (8, 8, 8)⟩], []⟩
        1 (mkRat 3 2)).queue.length <
        (⟨[⟨1000000000, (0, 0, 0), (1, 1, 1)⟩, ⟨1400000000, (2, 2, 2), (3, 3, 3)⟩,
          ⟨1600000000, (7, 7, 7), (8, 8, 8)⟩], []⟩ : ImuState).queue.length ∧
      ∀ m ∈ (preintegrate ⟨mkRat 1 100⟩ ⟨[⟨1000000000, (0, 0, 0), (1, 1, 1)⟩,
          ⟨1400000000, (2, 2, 2), (3, 3, 3)⟩, ⟨1600000000, (7, 7, 7), (8, 8, 8)⟩], []⟩
        1 (mkRat 3 2)).queue, (mkRat 3 2) ≤ ConvertToSeconds m.timestamp) :=
  ⟨⟨by decide, by decide⟩,
    preintegrate_end_misalign_buffer_consumed ⟨mkRat 1 100⟩
      ⟨[⟨1000000000, (0, 0, 0), (1, 1, 1)⟩, ⟨1400000000, (2, 2, 2), (3, 3, 3)⟩,
        ⟨1600000000, (7, 7, 7), (8, 8, 8)⟩], []⟩ 1 (mkRat 3 2)
      (by decide) (by decide)⟩

end Vehicle
